import Mathlib

/-!
Verification of the two maintenance scripts of the artisticportfolio
repository: a thumbnail generator (create_thumbnails.py) and an HTML
rewriter (update_gallery_html.py).  The Python code is shallowly embedded:
HTML documents are lists of characters, the regular-expression substitution
of the rewriter is embedded as a leftmost-match scanner that is faithful to
the pattern
  <img\s+src="(images/[^"]+\.(jpg|JPG|jpeg|JPEG|png|PNG))"([^>]*?)>
and the stateful parts (file system, per-file failures) are embedded with
explicit state and Except values.
-/

namespace Portfolio

/-! ### Character-list helpers -/

/-- Whitespace characters recognised by the regex class for blanks
(space, tab, newline, carriage return, vertical tab, form feed). -/
def wsChar (c : Char) : Bool :=
  c = ' ' || c = '\t' || c = '\n' || c = '\r' || c = Char.ofNat 11 || c = Char.ofNat 12

/-- Consume an expected literal at the head of a list; return the remainder
if the literal is present, none otherwise. -/
def dropStart : List Char → List Char → Option (List Char)
  | [], s => some s
  | _ :: _, [] => none
  | p :: ps, c :: cs => if c = p then dropStart ps cs else none

/-- Split a list at the first occurrence of a stop character: returns the
chunk before the stop (which does not contain it) and the remainder after
the stop.  Returns none when the stop character does not occur. -/
def splitAtChar (stop : Char) : List Char → Option (List Char × List Char)
  | [] => none
  | c :: cs =>
    if c = stop then some ([], cs)
    else
      match splitAtChar stop cs with
      | none => none
      | some (a, b) => some (c :: a, b)

/-- Does the first list occur at the start of the second one? -/
def startsWithSeq : List Char → List Char → Bool
  | [], _ => true
  | _ :: _, [] => false
  | p :: ps, c :: cs => c = p && startsWithSeq ps cs

/-- Substring test, mirroring the Python operator in on strings. -/
def containsSeq (needle : List Char) : List Char → Bool
  | [] => startsWithSeq needle []
  | c :: cs => startsWithSeq needle (c :: cs) || containsSeq needle cs

/-- Does the first list occur at the end of the second one? -/
def endsWithSeq (needle hay : List Char) : Bool :=
  startsWithSeq needle.reverse hay.reverse

/-- Python rsplit with maxsplit one: split at the last occurrence of the
separator, returning two pieces, or the whole list when the separator is
absent. -/
def rsplitOnce (sep : Char) (s : List Char) : List (List Char) :=
  match splitAtChar sep s.reverse with
  | none => [s]
  | some (ra, rb) => [rb.reverse, ra.reverse]

/-! ### Literals of the rewriter pattern (update_gallery_html.py, line 19) -/

def imgOpenLit : List Char := "<img".toList

def srcEqLit : List Char := "src=\"".toList

def imagesLit : List Char := "images/".toList

def thumbSegLit : List Char := "/thumbnails/".toList

/-- The six extension alternatives of the pattern, in order.  The pattern
lists exactly these case variants; it has no case-insensitivity flag. -/
def extAlts : List (List Char) := ["jpg".toList, "JPG".toList, "jpeg".toList,
  "JPEG".toList, "png".toList, "PNG".toList]

def dataFullresLit : List Char := "data-fullres=".toList

def loadingLit : List Char := "loading=".toList

def loadingLazyLit : List Char := " loading=\"lazy\"".toList

/-- The condition the quoted src value must satisfy to be group 1 of the
pattern: it is the literal images/ followed by at least one character (the
one-or-more character class), then a dot and one of the six extension
alternatives, ending exactly at the closing quote.  The quote-freeness is
guaranteed by construction at the call site. -/
def validImagePath (q : List Char) : Bool :=
  startsWithSeq imagesLit q &&
    extAlts.any (fun e => endsWithSeq ('.' :: e) q && 9 + e.length ≤ q.length)

/-- A successful match of the pattern: the whitespace after the img
opener, group 1 (the quoted path) and group 3 (the attributes between the
closing quote and the closing angle bracket). -/
structure ImgMatch where
  ws : List Char
  fullPath : List Char
  restAttrs : List Char
  deriving DecidableEq, Repr

/-- Group 0 of a match: the full matched text. -/
def ImgMatch.matched (m : ImgMatch) : List Char :=
  imgOpenLit ++ m.ws ++ srcEqLit ++ m.fullPath ++ '"' :: (m.restAttrs ++ ['>'])

/-- Attempt to match the pattern at the head of the input.  Returns the
match and the remainder of the input after the match.  This is faithful to
the backtracking regex: the closing quote of the src value is necessarily
the first quote after src=, the extension split inside group 1 is a pure
existence condition, and group 3 extends to the first closing angle
bracket (the non-greedy star). -/
def parseImg (s : List Char) : Option (ImgMatch × List Char) :=
  match dropStart imgOpenLit s with
  | none => none
  | some s1 =>
    match s1.takeWhile wsChar with
    | [] => none
    | wc :: wrest =>
      match dropStart srcEqLit (s1.dropWhile wsChar) with
      | none => none
      | some s3 =>
        match splitAtChar '"' s3 with
        | none => none
        | some (q, s4) =>
          if validImagePath q then
            match splitAtChar '>' s4 with
            | none => none
            | some (r, s5) => some (⟨wc :: wrest, q, r⟩, s5)
          else none

/-- The stem computed by the rewriter for a filename: everything before
the last dot, or the whole name when it has no dot
(filename.rsplit with separator dot, first component). -/
def thumbFilename (filename : List Char) : List Char :=
  (match rsplitOnce '.' filename with
   | [a, _] => a
   | _ => filename) ++ ".jpg".toList

/-- The replacement callback replace_img of update_gallery_html.py
(lines 21 to 45), translated clause by clause. -/
def replaceImg (m : ImgMatch) : List Char :=
  if containsSeq thumbSegLit m.fullPath then m.matched
  else
    match rsplitOnce '/' m.fullPath with
    | [dirPath, _filename] =>
      let thumbPath := dirPath ++ thumbSegLit ++ thumbFilename _filename
      if containsSeq dataFullresLit m.restAttrs then m.matched
      else
        let rest2 := if containsSeq loadingLit m.restAttrs then m.restAttrs
          else m.restAttrs ++ loadingLazyLit
        "<img src=\"".toList ++ thumbPath ++ "\" data-fullres=\"".toList ++
          m.fullPath ++ '"' :: (rest2 ++ ['>'])
    | _ => m.matched

/-- Fuelled scanner implementing re.sub with the pattern and replace_img:
at each position try to match; on a match emit the replacement and resume
after the match, otherwise emit one character and advance. -/
def scanAux : Nat → List Char → List Char
  | 0, s => s
  | _ + 1, [] => []
  | fuel + 1, c :: cs =>
    match parseImg (c :: cs) with
    | some (m, rest) => replaceImg m ++ scanAux fuel rest
    | none => c :: scanAux fuel cs

/-- The substitution over a whole document.  A fuel equal to the length of
the input suffices because every step consumes at least one character. -/
def scanHTML (s : List Char) : List Char := scanAux s.length s

/-- update_gallery_html (lines 10 to 55) on the content of one file:
returns the content left on disk and whether the file was written back.
The file is written only when the substitution changed the content. -/
def update_gallery_html (content : List Char) : List Char × Bool :=
  let c2 := scanHTML content
  if c2 = content then (content, false) else (c2, true)

/-! ### The rewriter main (update_gallery_html.py, lines 57 to 90) -/

/-- The hardcoded list of gallery HTML files. -/
def gallery_files : List String := ["index.html", "lifeIsADream.html",
  "headshots.html", "adlad.html", "stupidBird.html", "multiself.html",
  "not-sightly.html"]

/-- The state of one configured HTML file: missing from the file system,
stored with some content, or raising an exception when read, transformed
or written (for example a permission or decoding error). -/
inductive HFile where
  | missing
  | stored (content : List Char)
  | raising
  deriving DecidableEq, Repr

/-- Did a run of update_gallery_html change this file on disk? -/
def fileUpdated (fs : String → HFile) (f : String) : Bool :=
  match fs f with
  | HFile.stored c => (update_gallery_html c).2
  | _ => false

/-- The loop of main: a missing file is skipped after a console note, a
stored file is processed and counted when changed, and an exception
raised while processing a file propagates (main has no try block), so the
loop aborts and the summary line is never reached.  The ok value is the
count printed by the summary line. -/
def runFiles (fs : String → HFile) : List String → Nat → Except Unit Nat
  | [], acc => Except.ok acc
  | f :: rest, acc =>
    match fs f with
    | HFile.missing => runFiles fs rest acc
    | HFile.stored c =>
        runFiles fs rest (if (update_gallery_html c).2 then acc + 1 else acc)
    | HFile.raising => Except.error ()

/-- main of update_gallery_html.py over a file-system state. -/
def mainRewriter (fs : String → HFile) : Except Unit Nat :=
  runFiles fs gallery_files 0

/-! ### The thumbnail generator (create_thumbnails.py) -/

/-- MAX_SIZE, line 13. -/
def MAX_SIZE : Nat := 800

/-- QUALITY, line 14. -/
def QUALITY : Nat := 75

/-- IMAGE_DIRS, lines 17 to 26. -/
def IMAGE_DIRS : List String := ["images/Not Sightly",
  "images/la vida/ben rose la vida", "images/adlad", "images/Headshots",
  "images/sfb", "images/multiself", "images/videos", "images/la vida"]

/-- The supported extensions list of process_directory, line 77: exact
case variants only. -/
def extensionsLit : List (List Char) := [".jpg".toList, ".jpeg".toList,
  ".png".toList, ".JPG".toList, ".JPEG".toList, ".PNG".toList]

/-- The index of the last dot of a filename, if any. -/
def lastDotIdx (name : List Char) : Option Nat :=
  (name.reverse.findIdx? (fun c => c = '.')).map (fun j => name.length - 1 - j)

/-- pathlib suffix: the part of the name from the last dot on, provided
the dot is neither the first nor the last character; empty otherwise. -/
def pathSuffix (name : List Char) : List Char :=
  match lastDotIdx name with
  | none => []
  | some i => if 0 < i ∧ i < name.length - 1 then name.drop i else []

/-- pathlib stem: the name with its suffix removed. -/
def pathStem (name : List Char) : List Char :=
  match lastDotIdx name with
  | none => name
  | some i => if 0 < i ∧ i < name.length - 1 then name.take i else name

/-- The destination path of the thumbnail of a source file, as built by
process_directory lines 84 and 85: the thumbnails subdirectory of the
source directory, with the stem of the source and a jpg extension. -/
def thumbDest (d : String) (f : List Char) : List Char :=
  d.toList ++ "/thumbnails/".toList ++ pathStem f ++ ".jpg".toList

/-- The file-system state seen by the generator: which configured
directories exist, the regular files each directory contains (in
iteration order), and whether create_thumbnail succeeds on a given file
(false models any exception: corrupt file, unsupported mode, failing
input or output). -/
structure GenFS where
  dirExists : String → Bool
  dirFiles : String → List (List Char)
  fileOk : String → List Char → Bool

/-- Console events of the generator. -/
inductive GEvent where
  | warnMissing (d : String)
  | procDir (d : String)
  | fileDone (f : List Char)
  | fileError (f : List Char)
  deriving DecidableEq, Repr

/-- A save performed by create_thumbnail, line 46: destination path,
save format and quality as passed to img.save, and the source file. -/
structure SaveRec where
  path : List Char
  fmt : String
  quality : Nat
  src : List Char
  deriving DecidableEq, Repr

/-- The outcome of running process_directory: printed events, the
processed counter, and the sequence of thumbnail writes in order. -/
structure DirRun where
  events : List GEvent
  processed : Nat
  writes : List SaveRec
  deriving DecidableEq, Repr

/-- The per-file loop of process_directory (lines 80 to 88): each file
whose suffix is in the extensions list is handed to create_thumbnail,
which prints a success line and writes the thumbnail, or catches its
exception, prints an error line naming the file and returns false; the
loop always continues with the remaining files. -/
def procFiles (fs : GenFS) (d : String) : List (List Char) → DirRun
  | [] => ⟨[], 0, []⟩
  | f :: rest =>
    if pathSuffix f ∈ extensionsLit then
      let r := procFiles fs d rest
      if fs.fileOk d f then
        ⟨GEvent.fileDone f :: r.events, r.processed + 1,
          { path := thumbDest d f, fmt := "JPEG", quality := QUALITY,
            src := f } :: r.writes⟩
      else
        ⟨GEvent.fileError f :: r.events, r.processed, r.writes⟩
    else procFiles fs d rest

/-- process_directory (lines 61 to 90): on a missing directory it prints
the warning naming the directory and returns; otherwise it creates the
thumbnails subdirectory, prints the header and runs the per-file loop. -/
def process_directory (fs : GenFS) (d : String) : DirRun :=
  if fs.dirExists d then
    let r := procFiles fs d (fs.dirFiles d)
    ⟨GEvent.procDir d :: r.events, r.processed, r.writes⟩
  else ⟨[GEvent.warnMissing d], 0, []⟩

/-- The loop of the generator main (lines 97 to 102): each configured
directory is tested for existence first; only existing directories are
passed to process_directory and counted.  Returns the concatenated
events and the total_dirs counter of the summary. -/
def mainGenLoop (fs : GenFS) : List String → List GEvent × Nat
  | [] => ([], 0)
  | d :: rest =>
    if fs.dirExists d then
      let r := mainGenLoop fs rest
      ((process_directory fs d).events ++ r.1, r.2 + 1)
    else mainGenLoop fs rest

/-- main of create_thumbnails.py over a file-system state. -/
def mainGen (fs : GenFS) : List GEvent × Nat := mainGenLoop fs IMAGE_DIRS

/-- Last write wins: the save record that determines the final content at
a destination path after the run. -/
def lastWriteAt (ws : List SaveRec) (p : List Char) : Option SaveRec :=
  (ws.filter (fun r => r.path = p)).getLast?

/-! ### The image model (create_thumbnails.py, lines 28 to 46)

Pixels carry the channels of the PIL mode they belong to.  Only the mode
normalisation of lines 33 to 40 is modelled pixelwise; the resampling of
line 43 is modelled on dimensions only. -/

/-- PIL color modes relevant to the script. -/
inductive Mode where
  | RGB
  | RGBA
  | LA
  | L
  deriving DecidableEq, Repr

/-- A pixel in one of the modelled modes. -/
inductive Pix where
  | pRGB (r g b : Nat)
  | pRGBA (r g b a : Nat)
  | pLA (l a : Nat)
  | pL (l : Nat)
  deriving DecidableEq, Repr

/-- An in-memory PIL image: mode, dimensions and pixel data. -/
structure PILImage where
  mode : Mode
  width : Nat
  height : Nat
  pixels : List Pix
  deriving DecidableEq, Repr

/-- Modelled from the spec: the 8-bit blend primitive of the PIL paste
operation with a mask (library code, not in src): the rounded product
a times b over 255. -/
def muldiv255 (a b : Nat) : Nat := ((a * b + 128) * 257) / 65536

/-- One channel of pasting a foreground channel c with mask value a onto
an opaque white background channel. -/
def blendWhite (c a : Nat) : Nat := muldiv255 255 (255 - a) + muldiv255 c a

/-- Lines 34 to 38: paste the RGBA image onto a white RGB background
using its alpha channel as the mask.  Non-RGBA pixels are untouched
(this branch is only reached in mode RGBA). -/
def compositeWhitePix : Pix → Pix
  | Pix.pRGBA r g b a =>
      Pix.pRGB (blendWhite r a) (blendWhite g a) (blendWhite b a)
  | p => p

/-- Modelled from the spec: PIL convert to RGB (library code, not in
src): the alpha channel, when present, is dropped without compositing;
luminance is replicated over the three channels. -/
def convertRGBPix : Pix → Pix
  | Pix.pRGB r g b => Pix.pRGB r g b
  | Pix.pRGBA r g b _ => Pix.pRGB r g b
  | Pix.pLA l _ => Pix.pRGB l l l
  | Pix.pL l => Pix.pRGB l l l

/-- The mode normalisation of create_thumbnail, lines 33 to 40: an image
whose mode is exactly RGBA is composited onto a white background with its
alpha channel as mask; any other non-RGB mode goes through convert RGB;
RGB images pass unchanged. -/
def normalizeImage (img : PILImage) : PILImage :=
  if img.mode = Mode.RGBA then
    { img with mode := Mode.RGB, pixels := img.pixels.map compositeWhitePix }
  else if img.mode ≠ Mode.RGB then
    { img with mode := Mode.RGB, pixels := img.pixels.map convertRGBPix }
  else img

/-- The absolute difference of two naturals. -/
def absDiff (a b : Nat) : Nat := if a ≤ b then b - a else a - b

/-- Modelled from the spec: the width chosen by PIL Image.thumbnail
(library code, not in src) when the target box is square of side
MAX_SIZE and the image is at most as wide as tall: the floor or ceiling
of MAX_SIZE times width over height, whichever has aspect ratio closer
to the original (ties to the floor), clamped to at least one. -/
def roundAspectW (w h : Nat) : Nat :=
  let fl := MAX_SIZE * w / h
  let cl := (MAX_SIZE * w + h - 1) / h
  let pick := if absDiff (w * MAX_SIZE) (fl * h) ≤ absDiff (w * MAX_SIZE) (cl * h)
    then fl else cl
  max pick 1

/-- Modelled from the spec: the height chosen by PIL Image.thumbnail
when the image is wider than tall; the candidate zero is treated as a
perfect fit by the key function of the library, and the comparison of
the two aspect errors is cross-multiplied to stay in integers. -/
def roundAspectH (w h : Nat) : Nat :=
  let fl := MAX_SIZE * h / w
  let cl := (MAX_SIZE * h + w - 1) / w
  let pick :=
    if fl = 0 then fl
    else if absDiff (w * fl) (MAX_SIZE * h) * cl ≤ absDiff (w * cl) (MAX_SIZE * h) * fl
      then fl else cl
  max pick 1

/-- Modelled from the spec: PIL Image.thumbnail on dimensions (line 43
of the script calls it with a square MAX_SIZE box): a no-op when the
image already fits in the box, otherwise the binding dimension is set to
MAX_SIZE and the other is scaled to preserve the aspect ratio within
rounding. -/
def pilThumbnail (w h : Nat) : Nat × Nat :=
  if w ≤ MAX_SIZE ∧ h ≤ MAX_SIZE then (w, h)
  else if w ≤ h then (roundAspectW w h, MAX_SIZE)
  else (MAX_SIZE, roundAspectH w h)

/-! ### Concrete documents used by the theorems -/

/-- The example input of the spec idempotence property. -/
def exTag : List Char := "<img src=\"images/a/b.jpg\">".toList

/-- The rewritten form of the example, as printed in the spec. -/
def exTagOut : List Char :=
  "<img src=\"images/a/thumbnails/b.jpg\" data-fullres=\"images/a/b.jpg\" loading=\"lazy\">".toList

/-- A tag that already carries a data-fullres attribute. -/
def tagWithFullres : List Char :=
  "<img src=\"images/a/b.jpg\" data-fullres=\"x\">".toList

/-- A tag whose extension mixes upper and lower case. -/
def tagMixedCase : List Char := "<img src=\"images/a/b.Jpg\">".toList

/-- A tag already pointing into a thumbnails path. -/
def tagThumb : List Char := "<img src=\"images/a/thumbnails/b.jpg\">".toList

/-- The match produced by the pattern on tagThumb. -/
def tagThumbMatch : ImgMatch :=
  ⟨[' '], "images/a/thumbnails/b.jpg".toList, []⟩

/-- The match produced by the pattern on tagWithFullres. -/
def tagWithFullresMatch : ImgMatch :=
  ⟨[' '], "images/a/b.jpg".toList, " data-fullres=\"x\"".toList⟩

/-- An adversarial document: the first img src value contains a closing
angle bracket, and a second img opener with its own src value sits among
the trailing attributes of the first tag. -/
def advDoc : List Char :=
  "<img src=\"images/a>b.jpg\" <img src=\"images/x.jpg\" >".toList

/-- A canonical tag for a given extension alternative. -/
def tagOfExt (e : List Char) : List Char :=
  "<img src=\"images/a/b.".toList ++ e ++ "\">".toList

/-- The rewritten form of the canonical tag for a given extension. -/
def tagOfExtOut (e : List Char) : List Char :=
  "<img src=\"images/a/thumbnails/b.jpg\" data-fullres=\"images/a/b.".toList ++
    e ++ "\" loading=\"lazy\">".toList

/-- A file-system state for the generator in which no configured
directory exists. -/
def fsAllMissing : GenFS := ⟨fun _ => false, fun _ => [], fun _ _ => false⟩

/-- A generator file system with one directory holding two sources that
share a stem: a png and a jpg both named a. -/
def fsStemClash : GenFS :=
  ⟨fun d => d = "images/adlad",
   fun d => if d = "images/adlad" then ["a.png".toList, "a.jpg".toList] else [],
   fun _ _ => true⟩

/-- A generator file system with one directory holding a corrupt image
followed by a good one. -/
def fsWithBad : GenFS :=
  ⟨fun d => d = "images/adlad",
   fun d => if d = "images/adlad" then ["bad.jpg".toList, "good.jpg".toList]
     else [],
   fun _ f => f != "bad.jpg".toList⟩

/-- The files of a directory listing whose suffix is in the supported
extensions list: exactly the ones the per-file loop hands to
create_thumbnail. -/
def matchingFiles (files : List (List Char)) : List (List Char) :=
  files.filter (fun f => pathSuffix f ∈ extensionsLit)

/-- Concatenated events of a run over a list of directories. -/
def eventsOfDirs (fs : GenFS) : List String → List GEvent
  | [] => []
  | d :: rest => (process_directory fs d).events ++ eventsOfDirs fs rest

/-- A one-pixel RGBA image, dark and fully transparent. -/
def exRGBA : PILImage := ⟨Mode.RGBA, 1, 1, [Pix.pRGBA 7 7 7 0]⟩

/-- A one-pixel LA image, black and fully transparent. -/
def exLA : PILImage := ⟨Mode.LA, 1, 1, [Pix.pLA 0 0]⟩

/-! ### Helper lemmas -/

lemma dropStart_eq {p s t : List Char} (h : dropStart p s = some t) :
    s = p ++ t := by
  induction p generalizing s with
  | nil =>
    simp only [dropStart, Option.some.injEq] at h
    simp [h]
  | cons c ps ih =>
    cases s with
    | nil => simp [dropStart] at h
    | cons d ds =>
      simp only [dropStart] at h
      split at h
      · rename_i hd
        rw [hd, List.cons_append]
        exact congrArg _ (ih h)
      · exact absurd h (by simp)

lemma splitAtChar_eq {stop : Char} {s a b : List Char}
    (h : splitAtChar stop s = some (a, b)) : s = a ++ stop :: b ∧ stop ∉ a := by
  induction s generalizing a b with
  | nil => simp [splitAtChar] at h
  | cons c cs ih =>
    simp only [splitAtChar] at h
    split at h
    · rename_i hc
      obtain ⟨rfl, rfl⟩ : a = [] ∧ cs = b := by
        simpa [eq_comm] using h
      simp [hc]
    · rename_i hc
      split at h
      · exact absurd h (by simp)
      · rename_i a' b' hsplit
        obtain ⟨rfl, rfl⟩ : a = c :: a' ∧ b' = b := by
          simpa [eq_comm, and_comm] using h
        obtain ⟨heq, hnot⟩ := ih hsplit
        refine ⟨by rw [heq]; simp, ?_⟩
        simp only [List.mem_cons, not_or]
        exact ⟨fun hs => hc hs.symm, hnot⟩

lemma splitAtChar_isSome {stop : Char} {s : List Char} (h : stop ∈ s) :
    ∃ a b, splitAtChar stop s = some (a, b) := by
  induction s with
  | nil => cases h
  | cons c cs ih =>
    by_cases hc : c = stop
    · exact ⟨[], cs, by simp [splitAtChar, hc]⟩
    · have hmem : stop ∈ cs := by
        rcases List.mem_cons.mp h with h' | h'
        · exact absurd h'.symm hc
        · exact h'
      obtain ⟨a, b, hab⟩ := ih hmem
      exact ⟨c :: a, b, by simp [splitAtChar, hc, hab]⟩

lemma startsWithSeq_eq {p s : List Char} (h : startsWithSeq p s = true) :
    ∃ t, s = p ++ t := by
  induction p generalizing s with
  | nil => exact ⟨s, rfl⟩
  | cons c ps ih =>
    cases s with
    | nil => simp [startsWithSeq] at h
    | cons d ds =>
      simp only [startsWithSeq, Bool.and_eq_true, decide_eq_true_eq] at h
      obtain ⟨rfl, h2⟩ := h
      obtain ⟨t, rfl⟩ := ih h2
      exact ⟨t, rfl⟩

lemma rsplitOnce_of_mem {sep : Char} {s : List Char} (h : sep ∈ s) :
    ∃ a b, rsplitOnce sep s = [a, b] := by
  have h' : sep ∈ s.reverse := List.mem_reverse.mpr h
  obtain ⟨ra, rb, hr⟩ := splitAtChar_isSome h'
  exact ⟨rb.reverse, ra.reverse, by simp [rsplitOnce, hr]⟩

lemma parseImg_valid {s : List Char} {m : ImgMatch} {rest : List Char}
    (h : parseImg s = some (m, rest)) : validImagePath m.fullPath = true := by
  unfold parseImg at h
  split at h
  · exact absurd h (by simp)
  · split at h
    · exact absurd h (by simp)
    · split at h
      · exact absurd h (by simp)
      · split at h
        · exact absurd h (by simp)
        · split at h
          · rename_i hvalid
            split at h
            · exact absurd h (by simp)
            · simp only [Option.some.injEq, Prod.mk.injEq] at h
              rw [← h.1]
              exact hvalid
          · exact absurd h (by simp)

lemma fullPath_has_slash {s : List Char} {m : ImgMatch} {rest : List Char}
    (h : parseImg s = some (m, rest)) : '/' ∈ m.fullPath := by
  have hval := parseImg_valid h
  simp only [validImagePath, Bool.and_eq_true] at hval
  obtain ⟨t, ht⟩ := startsWithSeq_eq hval.1
  rw [ht]
  simp [imagesLit]

/-! ### Claim C1: attribute handling of the rewrite -/

/-- C1, counterexample.  A matched tag under images/ without a thumbnails
segment but with an existing data-fullres attribute is returned entirely
unchanged: its src is NOT rewritten to the thumbnail path, contradicting
the claim that such a tag still gets its src rewritten.  The output of the
rewriter on this document equals the input and contains no thumbnails
segment. -/
theorem claim1_cex :
    scanHTML tagWithFullres = tagWithFullres ∧
    containsSeq thumbSegLit (scanHTML tagWithFullres) = false := by decide

/-- C1, amended.  For every matched tag whose src path has no thumbnails
segment: when a data-fullres attribute is already present among the
trailing attributes the whole tag is returned unchanged (the src is not
rewritten and no second data-fullres is added); when no data-fullres
attribute is present, the src is rewritten to the thumbnail path
(directory, a thumbnails segment, the stem with a jpg extension), a
data-fullres attribute carrying the original path is added, and the tag
attributes are preserved verbatim (with a lazy-loading attribute appended
when absent). -/
theorem claim1_amended : ∀ s m rest, parseImg s = some (m, rest) →
    containsSeq thumbSegLit m.fullPath = false →
    (containsSeq dataFullresLit m.restAttrs = true → replaceImg m = m.matched) ∧
    (containsSeq dataFullresLit m.restAttrs = false →
      ∃ dirPath filename, rsplitOnce '/' m.fullPath = [dirPath, filename] ∧
        replaceImg m =
          "<img src=\"".toList ++
            (dirPath ++ thumbSegLit ++ thumbFilename filename) ++
            "\" data-fullres=\"".toList ++ m.fullPath ++
            '"' :: ((if containsSeq loadingLit m.restAttrs then m.restAttrs
                     else m.restAttrs ++ loadingLazyLit) ++ ['>'])) := by
  intro s m rest hp hthumb
  obtain ⟨a, b, hab⟩ := rsplitOnce_of_mem (fullPath_has_slash hp)
  constructor
  · intro hdf
    simp [replaceImg, hthumb, hab, hdf]
  · intro hdf
    exact ⟨a, b, hab, by simp [replaceImg, hthumb, hab, hdf]⟩

/-- C1, witness for the amended claim at a concrete tag carrying a
data-fullres attribute. -/
theorem claim1_amended_w :
    replaceImg tagWithFullresMatch = tagWithFullresMatch.matched :=
  (claim1_amended tagWithFullres tagWithFullresMatch [] (by decide)
    (by decide)).1 (by decide)

/-! ### Claim C4: case sensitivity of the extension alternatives -/

/-- C4, counterexample.  A tag whose src ends in a mixed-case extension
(.Jpg) is NOT matched: the rewriter leaves the document unchanged and no
thumbnail path is introduced, contradicting the claim that any mixture of
upper and lower case is recognized and rewritten. -/
theorem claim4_cex :
    scanHTML tagMixedCase = tagMixedCase ∧
    containsSeq thumbSegLit (scanHTML tagMixedCase) = false := by decide

/-- C4, amended.  The pattern recognizes exactly the six exact-case
extension alternatives jpg, JPG, jpeg, JPEG, png, PNG: a canonical tag
with any of these extensions is rewritten to the thumbnail form. -/
theorem claim4_amended : ∀ e, e ∈ extAlts →
    scanHTML (tagOfExt e) = tagOfExtOut e := by decide

/-- C4, witness at the jpeg alternative. -/
theorem claim4_amended_w :
    scanHTML (tagOfExt ("jpeg".toList)) = tagOfExtOut ("jpeg".toList) :=
  claim4_amended ("jpeg".toList) (by decide)

/-! ### Claim C5: idempotence of the rewrite -/

/-- C5, counterexample.  The substitution is not idempotent on all
documents: on advDoc (whose first matched src value contains a closing
angle bracket) a second application of the rewriter changes the output of
the first application again. -/
theorem claim5_cex : scanHTML (scanHTML advDoc) ≠ scanHTML advDoc := by decide

/-- C5, amended.  The rewrite is idempotent on the example of the spec
(one pass produces the thumbnail form, a second pass leaves it
unchanged); every matched tag whose src already contains a thumbnails
segment is replaced by itself; and content unchanged by the substitution
is not written back.  However the substitution is not idempotent on every
document (see the counterexample): when a matched src value contains a
closing angle bracket, the second pass can rewrite an img opener that the
first pass had swallowed inside a match. -/
theorem claim5_amended :
    (scanHTML exTag = exTagOut ∧ scanHTML (scanHTML exTag) = scanHTML exTag) ∧
    (∀ s m rest, parseImg s = some (m, rest) →
      containsSeq thumbSegLit m.fullPath = true → replaceImg m = m.matched) ∧
    (∀ c, scanHTML c = c → update_gallery_html c = (c, false)) := by
  refine ⟨by decide, ?_, ?_⟩
  · intro s m rest _ hthumb
    simp [replaceImg, hthumb]
  · intro c hc
    simp [update_gallery_html, hc]

/-- C5, witness: the thumbnail-guard and the no-write clause at a
concrete already-rewritten tag. -/
theorem claim5_amended_w :
    replaceImg tagThumbMatch = tagThumbMatch.matched ∧
    update_gallery_html tagThumb = (tagThumb, false) :=
  ⟨claim5_amended.2.1 tagThumb tagThumbMatch [] (by decide) (by decide),
   claim5_amended.2.2 tagThumb (by decide)⟩

/-! ### Claim C2: failure semantics of the rewriter run -/

lemma runFiles_ok (fs : String → HFile) : ∀ (l : List String) (acc : Nat),
    (∀ f ∈ l, fs f ≠ HFile.raising) →
    runFiles fs l acc = Except.ok (acc + (l.filter (fileUpdated fs)).length) := by
  intro l
  induction l with
  | nil => intro acc _; simp [runFiles]
  | cons f rest ih =>
    intro acc hl
    have hf : fs f ≠ HFile.raising := hl f (by simp)
    have hrest : ∀ g ∈ rest, fs g ≠ HFile.raising :=
      fun g hg => hl g (by simp [hg])
    cases hfa : fs f with
    | missing =>
      have hup : fileUpdated fs f = false := by simp [fileUpdated, hfa]
      simp only [runFiles, hfa]
      rw [ih acc hrest]
      simp [List.filter_cons, hup]
    | stored c =>
      have hup : fileUpdated fs f = (update_gallery_html c).2 := by
        simp [fileUpdated, hfa]
      simp only [runFiles, hfa]
      by_cases hu : (update_gallery_html c).2 = true
      · rw [if_pos hu, ih (acc + 1) hrest]
        have hup' : fileUpdated fs f = true := by rw [hup]; exact hu
        simp only [List.filter_cons, hup', if_pos, List.length_cons]
        congr 1
        omega
      · rw [if_neg hu, ih acc hrest]
        have hup' : fileUpdated fs f = false := by
          rw [hup]; exact Bool.eq_false_iff.mpr hu
        simp [List.filter_cons, hup']
    | raising => exact absurd hfa hf

/-- C2, counterexample.  When every configured file raises on read, the
exception propagates out of the per-file loop: the run aborts with the
error instead of completing, so the remaining files are not processed and
the summary count is never printed, contradicting the claim that no
exception propagates past the per-file boundary. -/
theorem claim2_cex :
    mainRewriter (fun _ => HFile.raising) = Except.error () := by rfl

/-- C2, amended.  Only missing files are skipped gracefully; main has no
exception handler, so the run completes and reports the summary count of
updated files exactly when no configured file raises while being read,
transformed or written. -/
theorem claim2_amended : ∀ fs : String → HFile,
    (∀ f ∈ gallery_files, fs f ≠ HFile.raising) →
    mainRewriter fs =
      Except.ok ((gallery_files.filter (fileUpdated fs)).length) := by
  intro fs h
  have := runFiles_ok fs gallery_files 0 h
  simpa [mainRewriter] using this

/-- C2, witness: a run over a file system where every configured file is
missing completes with a summary count of zero. -/
theorem claim2_amended_w :
    mainRewriter (fun _ => HFile.missing) = Except.ok 0 := by
  have h := claim2_amended (fun _ => HFile.missing) (by decide)
  rw [h]
  congr 1

/-! ### Claims C3 and C9: generator error handling -/

lemma procFiles_spec (fs : GenFS) (d : String) : ∀ files : List (List Char),
    procFiles fs d files =
      ⟨(matchingFiles files).map
         (fun f => if fs.fileOk d f then GEvent.fileDone f
                   else GEvent.fileError f),
       ((matchingFiles files).filter (fun f => fs.fileOk d f)).length,
       ((matchingFiles files).filter (fun f => fs.fileOk d f)).map
         (fun f => ⟨thumbDest d f, "JPEG", QUALITY, f⟩)⟩ := by
  intro files
  induction files with
  | nil => simp [procFiles, matchingFiles]
  | cons f rest ih =>
    by_cases hm : pathSuffix f ∈ extensionsLit
    · by_cases ho : fs.fileOk d f
      · simp [procFiles, matchingFiles, List.filter_cons, hm, ho, ih]
      · simp [procFiles, matchingFiles, List.filter_cons, hm, ho, ih]
    · simp [procFiles, matchingFiles, List.filter_cons, hm, ih]

lemma mainGenLoop_spec (fs : GenFS) : ∀ l : List String,
    mainGenLoop fs l =
      (eventsOfDirs fs (l.filter (fun d => fs.dirExists d)),
       (l.filter (fun d => fs.dirExists d)).length) := by
  intro l
  induction l with
  | nil => simp [mainGenLoop, eventsOfDirs]
  | cons d rest ih =>
    by_cases hd : fs.dirExists d
    · simp [mainGenLoop, List.filter_cons, hd, eventsOfDirs, ih]
    · simp [mainGenLoop, List.filter_cons, hd, ih]

lemma warn_not_in_procFiles (fs : GenFS) (d d' : String)
    (files : List (List Char)) :
    GEvent.warnMissing d ∉ (procFiles fs d' files).events := by
  rw [procFiles_spec]
  simp only [List.mem_map, not_exists, not_and]
  intro f _
  by_cases ho : fs.fileOk d' f <;> simp [ho]

lemma warn_not_in_eventsOfDirs (fs : GenFS) (d : String) : ∀ l : List String,
    (∀ d' ∈ l, fs.dirExists d' = true) →
    GEvent.warnMissing d ∉ eventsOfDirs fs l := by
  intro l
  induction l with
  | nil => simp [eventsOfDirs]
  | cons d' rest ih =>
    intro hl
    have hd' : fs.dirExists d' = true := hl d' (by simp)
    simp only [eventsOfDirs, List.mem_append, not_or]
    refine ⟨?_, ih (fun x hx => hl x (by simp [hx]))⟩
    simp only [process_directory, hd', if_true]
    simp only [List.mem_cons, not_or]
    exact ⟨by simp, warn_not_in_procFiles fs d d' _⟩

/-- C3, counterexample.  In a run where no configured directory exists,
the generator prints nothing at all: no warning naming any missing
directory is emitted, contradicting the claim that every missing
configured directory is warned about.  The directory images/adlad is
configured and missing, yet the event list of the run is empty. -/
theorem claim3_cex :
    (mainGen fsAllMissing).1 = [] ∧ (mainGen fsAllMissing).2 = 0 ∧
    fsAllMissing.dirExists "images/adlad" = false ∧
    "images/adlad" ∈ IMAGE_DIRS := by decide

/-- C3, amended.  The generator main tests existence before calling
process_directory, so a missing configured directory is silently skipped:
no warning event ever appears in a run (the warning branch inside
process_directory is unreachable from main, though calling
process_directory directly on a missing directory would emit exactly the
warning naming it and return).  The run does not raise and continues: it
processes exactly the existing configured directories. -/
theorem claim3_amended : ∀ (fs : GenFS) (d : String),
    GEvent.warnMissing d ∉ (mainGen fs).1 ∧
    (fs.dirExists d = false →
      process_directory fs d = ⟨[GEvent.warnMissing d], 0, []⟩) ∧
    (mainGen fs).2 = (IMAGE_DIRS.filter (fun x => fs.dirExists x)).length := by
  intro fs d
  refine ⟨?_, ?_, ?_⟩
  · simp only [mainGen, mainGenLoop_spec]
    exact warn_not_in_eventsOfDirs fs d _
      (fun x hx => (List.mem_filter.mp hx).2)
  · intro hd
    simp [process_directory, hd]
  · simp only [mainGen, mainGenLoop_spec]

/-- C3, witness: process_directory on a concrete missing directory and
the absence of its warning from the run. -/
theorem claim3_amended_w :
    process_directory fsStemClash "images/videos" =
      ⟨[GEvent.warnMissing "images/videos"], 0, []⟩ ∧
    GEvent.warnMissing "images/videos" ∉ (mainGen fsStemClash).1 :=
  ⟨(claim3_amended fsStemClash "images/videos").2.1 (by decide),
   (claim3_amended fsStemClash "images/videos").1⟩

/-- C9, confirmed.  In an existing directory, the per-file loop emits one
event for every file with a supported extension, in order: a success line
or an error line naming the failing file; a failing file is not counted
in the processed counter (which counts exactly the successes), and
neither subsequent matching files of the directory nor subsequent
configured directories are skipped (the total of processed directories is
independent of any per-file failures). -/
theorem claim9_confirmed : ∀ (fs : GenFS) (d : String),
    fs.dirExists d = true →
    (process_directory fs d).events =
      GEvent.procDir d :: (matchingFiles (fs.dirFiles d)).map
        (fun f => if fs.fileOk d f then GEvent.fileDone f
                  else GEvent.fileError f) ∧
    (∀ f ∈ matchingFiles (fs.dirFiles d), fs.fileOk d f = false →
      GEvent.fileError f ∈ (process_directory fs d).events) ∧
    (process_directory fs d).processed =
      ((matchingFiles (fs.dirFiles d)).filter
        (fun f => fs.fileOk d f)).length ∧
    (mainGen fs).2 = (IMAGE_DIRS.filter (fun x => fs.dirExists x)).length := by
  intro fs d hd
  have hevents : (process_directory fs d).events =
      GEvent.procDir d :: (matchingFiles (fs.dirFiles d)).map
        (fun f => if fs.fileOk d f then GEvent.fileDone f
                  else GEvent.fileError f) := by
    simp [process_directory, hd, procFiles_spec]
  refine ⟨hevents, ?_, ?_, ?_⟩
  · intro f hf hok
    rw [hevents]
    refine List.mem_cons_of_mem _ (List.mem_map.mpr ⟨f, hf, ?_⟩)
    simp [hok]
  · simp [process_directory, hd, procFiles_spec]
  · simp only [mainGen, mainGenLoop_spec]

/-- C9, witness: a directory with a corrupt file followed by a good one
produces an error event for the corrupt file, a success event for the
good one, and a processed count of one. -/
theorem claim9_confirmed_w :
    (process_directory fsWithBad "images/adlad").events =
      [GEvent.procDir "images/adlad", GEvent.fileError ("bad.jpg".toList),
       GEvent.fileDone ("good.jpg".toList)] ∧
    (process_directory fsWithBad "images/adlad").processed = 1 := by
  obtain ⟨h1, -, h3, -⟩ := claim9_confirmed fsWithBad "images/adlad" (by decide)
  constructor
  · rw [h1]; decide
  · rw [h3]; decide

/-! ### Claim C8: thumbnail naming and format -/

/-- C8, confirmed.  Every successfully processed source file, whatever
its (supported, either-case) extension, produces a save whose destination
is the thumbnails subdirectory of the source directory with the stem of
the source and a jpg extension, in JPEG format at the configured
quality. -/
theorem claim8_confirmed : ∀ (fs : GenFS) (d : String) (f : List Char),
    fs.dirExists d = true → f ∈ fs.dirFiles d →
    pathSuffix f ∈ extensionsLit → fs.fileOk d f = true →
    ({ path := d.toList ++ "/thumbnails/".toList ++ pathStem f ++
         ".jpg".toList,
       fmt := "JPEG", quality := QUALITY, src := f } : SaveRec)
      ∈ (process_directory fs d).writes := by
  intro fs d f hd hf hm ho
  have hw : (process_directory fs d).writes =
      ((matchingFiles (fs.dirFiles d)).filter (fun g => fs.fileOk d g)).map
        (fun g => ⟨thumbDest d g, "JPEG", QUALITY, g⟩) := by
    simp [process_directory, hd, procFiles_spec]
  rw [hw]
  refine List.mem_map.mpr ⟨f, ?_, by simp [thumbDest]⟩
  refine List.mem_filter.mpr ⟨?_, ho⟩
  exact List.mem_filter.mpr ⟨hf, by simpa using hm⟩

/-- C8, witness: the png source a.png of the concrete directory is saved
as thumbnails slash a.jpg in JPEG format. -/
theorem claim8_confirmed_w :
    ({ path := "images/adlad".toList ++ "/thumbnails/".toList ++
         pathStem ("a.png".toList) ++ ".jpg".toList,
       fmt := "JPEG", quality := QUALITY, src := "a.png".toList } : SaveRec)
      ∈ (process_directory fsStemClash "images/adlad").writes :=
  claim8_confirmed fsStemClash "images/adlad" ("a.png".toList) (by decide)
    (by decide) (by decide) (by decide)

/-! ### Claim C10: the source-to-thumbnail mapping is not injective -/

/-- C10, confirmed.  Two sources in the same directory with equal stems
map to the same destination path; in the concrete directory holding
a.png and a.jpg, both writes target the same path, and last write wins:
after the run the surviving save at that path is the one of the file
processed later (a.jpg), so only one thumbnail remains for the two
distinct sources. -/
theorem claim10_confirmed :
    (∀ (d : String) (f1 f2 : List Char), pathStem f1 = pathStem f2 →
      thumbDest d f1 = thumbDest d f2) ∧
    ((process_directory fsStemClash "images/adlad").writes =
      [⟨thumbDest "images/adlad" ("a.png".toList), "JPEG", QUALITY,
         "a.png".toList⟩,
       ⟨thumbDest "images/adlad" ("a.jpg".toList), "JPEG", QUALITY,
         "a.jpg".toList⟩] ∧
     thumbDest "images/adlad" ("a.png".toList) =
       thumbDest "images/adlad" ("a.jpg".toList) ∧
     ("a.png".toList ≠ "a.jpg".toList) ∧
     lastWriteAt (process_directory fsStemClash "images/adlad").writes
         (thumbDest "images/adlad" ("a.jpg".toList)) =
       some ⟨thumbDest "images/adlad" ("a.jpg".toList), "JPEG", QUALITY,
         "a.jpg".toList⟩) := by
  constructor
  · intro d f1 f2 h
    simp [thumbDest, h]
  · decide

/-- C10, witness: the stem-equality clause at two distinct concrete
names differing only in extension case. -/
theorem claim10_confirmed_w :
    thumbDest "images/x" ("a.JPG".toList) =
      thumbDest "images/x" ("a.jpg".toList) :=
  claim10_confirmed.1 "images/x" ("a.JPG".toList) ("a.jpg".toList) (by decide)

/-! ### Claim C6: alpha handling of the mode normalisation -/

lemma blendWhite_zero (c : Nat) : blendWhite c 0 = 255 := by
  simp only [blendWhite, muldiv255, Nat.mul_zero, Nat.zero_add,
    Nat.sub_zero]

/-- C6, counterexample.  A fully transparent black LA pixel is NOT
rendered white: the script composites only mode RGBA, and an LA image
goes through the plain RGB conversion, which drops the alpha channel and
keeps the luminance, so the transparent pixel comes out black. -/
theorem claim6_cex :
    normalizeImage exLA = ⟨Mode.RGB, 1, 1, [Pix.pRGB 0 0 0]⟩ ∧
    Pix.pRGB 0 0 0 ≠ Pix.pRGB 255 255 255 := by decide

/-- C6, amended.  The normalised image never has an alpha channel (its
mode is always RGB); an image whose mode is exactly RGBA is composited
onto an opaque white background using its alpha channel as the mask, and
a fully transparent RGBA pixel renders white; but other alpha-carrying
modes (such as LA) are converted without compositing. -/
theorem claim6_amended : ∀ img : PILImage,
    (normalizeImage img).mode = Mode.RGB ∧
    (img.mode = Mode.RGBA →
      (normalizeImage img).pixels = img.pixels.map compositeWhitePix) ∧
    (∀ r g b, compositeWhitePix (Pix.pRGBA r g b 0) =
      Pix.pRGB 255 255 255) := by
  intro img
  refine ⟨?_, ?_, ?_⟩
  · unfold normalizeImage
    split_ifs with h1 h2
    · rfl
    · rfl
    · exact not_ne_iff.mp h2
  · intro h
    simp [normalizeImage, h]
  · intro r g b
    simp [compositeWhitePix, blendWhite_zero]

/-- C6, witness at a concrete transparent RGBA image. -/
theorem claim6_amended_w :
    (normalizeImage exRGBA).mode = Mode.RGB ∧
    (normalizeImage exRGBA).pixels = exRGBA.pixels.map compositeWhitePix :=
  ⟨(claim6_amended exRGBA).1, (claim6_amended exRGBA).2.1 rfl⟩

/-! ### Claim C7: thumbnail dimensions -/

lemma ceilDiv_le_floorDiv_succ {a h : Nat} (hh : 0 < h) :
    (a + h - 1) / h ≤ a / h + 1 := by
  rcases Nat.eq_zero_or_pos (a % h) with hr | hr
  · have hdm := Nat.div_add_mod a h
    have hdecomp : a + h - 1 = h * (a / h) + (h - 1) := by omega
    rw [hdecomp, Nat.mul_add_div hh]
    have hz : (h - 1) / h = 0 := Nat.div_eq_of_lt (by omega)
    omega
  · have hdm := Nat.div_add_mod a h
    have hlt : a % h < h := Nat.mod_lt _ hh
    have hmul : h * (a / h + 1) = h * (a / h) + h := by ring
    have hdecomp : a + h - 1 = h * (a / h + 1) + (a % h - 1) := by omega
    rw [hdecomp, Nat.mul_add_div hh]
    have hz : (a % h - 1) / h = 0 := Nat.div_eq_of_lt (by omega)
    omega

lemma floorDiv_le_ceilDiv {a h : Nat} (hh : 0 < h) :
    a / h ≤ (a + h - 1) / h :=
  Nat.div_le_div_right (by omega)

lemma ceilDiv_le_of_le {a c h : Nat} (hh : 0 < h) (hle : a ≤ h * c) :
    (a + h - 1) / h ≤ c := by
  have h1 : a + h - 1 ≤ h * c + (h - 1) := by omega
  have h2 : (h * c + (h - 1)) / h = c + (h - 1) / h := Nat.mul_add_div hh _ _
  have h3 : (h - 1) / h = 0 := Nat.div_eq_of_lt (by omega)
  calc (a + h - 1) / h ≤ (h * c + (h - 1)) / h := Nat.div_le_div_right h1
    _ = c := by rw [h2, h3]; omega

lemma roundAspectW_bounds {w h : Nat} (hh : 0 < h) (hwh : w ≤ h) :
    MAX_SIZE * w / h ≤ roundAspectW w h ∧
    roundAspectW w h ≤ MAX_SIZE * w / h + 1 ∧
    roundAspectW w h ≤ MAX_SIZE := by
  have hms : 1 ≤ MAX_SIZE := by norm_num [MAX_SIZE]
  have hcap : (MAX_SIZE * w + h - 1) / h ≤ MAX_SIZE := by
    apply ceilDiv_le_of_le hh
    calc MAX_SIZE * w ≤ MAX_SIZE * h := mul_le_mul_left' hwh _
      _ = h * MAX_SIZE := Nat.mul_comm _ _
  have hfc := floorDiv_le_ceilDiv (a := MAX_SIZE * w) hh
  have hcf := ceilDiv_le_floorDiv_succ (a := MAX_SIZE * w) hh
  simp only [roundAspectW]
  generalize hg1 : MAX_SIZE * w / h = fl at hfc hcf ⊢
  generalize hg2 : (MAX_SIZE * w + h - 1) / h = cl at hfc hcf hcap ⊢
  split_ifs with hk <;> clear hk <;> refine ⟨?_, ?_, ?_⟩ <;> omega

lemma roundAspectH_bounds {w h : Nat} (hw : 0 < w) (hhw : h ≤ w) :
    MAX_SIZE * h / w ≤ roundAspectH w h ∧
    roundAspectH w h ≤ MAX_SIZE * h / w + 1 ∧
    roundAspectH w h ≤ MAX_SIZE := by
  have hms : 1 ≤ MAX_SIZE := by norm_num [MAX_SIZE]
  have hcap : (MAX_SIZE * h + w - 1) / w ≤ MAX_SIZE := by
    apply ceilDiv_le_of_le hw
    calc MAX_SIZE * h ≤ MAX_SIZE * w := mul_le_mul_left' hhw _
      _ = w * MAX_SIZE := Nat.mul_comm _ _
  have hfc := floorDiv_le_ceilDiv (a := MAX_SIZE * h) hw
  have hcf := ceilDiv_le_floorDiv_succ (a := MAX_SIZE * h) hw
  simp only [roundAspectH]
  generalize hg1 : MAX_SIZE * h / w = fl at hfc hcf ⊢
  generalize hg2 : (MAX_SIZE * h + w - 1) / w = cl at hfc hcf hcap ⊢
  split_ifs with hk1 hk2 <;> try clear hk1
  all_goals try clear hk2
  all_goals refine ⟨?_, ?_, ?_⟩ <;> omega

/-- C7, confirmed (against the model of the library resize routine).
For every positive source size, neither output dimension exceeds
MAX_SIZE, and either the image already fits (returned unchanged) or the
binding dimension equals MAX_SIZE and the other is the exact aspect
scaling within one unit of integer rounding. -/
theorem claim7_confirmed : ∀ w h : Nat, 0 < w → 0 < h →
    (pilThumbnail w h).1 ≤ MAX_SIZE ∧ (pilThumbnail w h).2 ≤ MAX_SIZE ∧
    (pilThumbnail w h = (w, h) ∨
     ((pilThumbnail w h).2 = MAX_SIZE ∧
       MAX_SIZE * w / h ≤ (pilThumbnail w h).1 ∧
       (pilThumbnail w h).1 ≤ MAX_SIZE * w / h + 1) ∨
     ((pilThumbnail w h).1 = MAX_SIZE ∧
       MAX_SIZE * h / w ≤ (pilThumbnail w h).2 ∧
       (pilThumbnail w h).2 ≤ MAX_SIZE * h / w + 1)) := by
  intro w h hw hh
  unfold pilThumbnail
  split_ifs with h1 h2
  · exact ⟨h1.1, h1.2, Or.inl rfl⟩
  · obtain ⟨b1, b2, b3⟩ := roundAspectW_bounds hh h2
    exact ⟨b3, le_refl _, Or.inr (Or.inl ⟨rfl, b1, b2⟩)⟩
  · have hhw : h ≤ w := by omega
    obtain ⟨b1, b2, b3⟩ := roundAspectH_bounds hw hhw
    exact ⟨le_refl _, b3, Or.inr (Or.inr ⟨rfl, b1, b2⟩)⟩

/-- C7, witness at a concrete 1600 by 1200 image (the result is 800 by
600). -/
theorem claim7_confirmed_w :
    (pilThumbnail 1600 1200 = (800, 600)) ∧
    ((pilThumbnail 1600 1200).1 ≤ MAX_SIZE ∧
     (pilThumbnail 1600 1200).2 ≤ MAX_SIZE ∧
     (pilThumbnail 1600 1200 = (1600, 1200) ∨
      ((pilThumbnail 1600 1200).2 = MAX_SIZE ∧
        MAX_SIZE * 1600 / 1200 ≤ (pilThumbnail 1600 1200).1 ∧
        (pilThumbnail 1600 1200).1 ≤ MAX_SIZE * 1600 / 1200 + 1) ∨
      ((pilThumbnail 1600 1200).1 = MAX_SIZE ∧
        MAX_SIZE * 1200 / 1600 ≤ (pilThumbnail 1600 1200).2 ∧
        (pilThumbnail 1600 1200).2 ≤ MAX_SIZE * 1200 / 1600 + 1))) :=
  ⟨by decide, claim7_confirmed 1600 1200 (by decide) (by decide)⟩

end Portfolio
